import Mathlib

/-!
Verification of the dayonerunlog repository (src/dayonerun.py, src/dayonerunlog.py,
src/wrappers.py) against its natural-language specification.

The Python source is shallowly embedded: physical quantities (seconds, meters,
kilometers, miles) are modelled as exact rationals in a fixed unit, with the
unit conversions the `pint` registry performs written out explicitly.  Python
floats are modelled by `ℚ`; raising an exception is modelled by `Except`.
-/

/-! ## Units

`pint` defines 1 mile = 5280 ft = 5280 * 0.3048 m = 1609.344 m exactly. -/

/-- Kilometers in one mile (exact): 1 mile = 1.609344 km. -/
def kmPerMile : ℚ := 1609344 / 1000000

/-- Meters in one mile (exact): 1 mile = 1609.344 m. -/
def metersPerMile : ℚ := 1609344 / 1000

/-- `(d kilometers).to(miles)`: pint's exact conversion of kilometers to miles. -/
def toMiles (dKm : ℚ) : ℚ := dKm / kmPerMile

/-- `(d meters).to(miles)`: pint's exact conversion of meters to miles. -/
def metersToMiles (dM : ℚ) : ℚ := dM / metersPerMile

/-! ## Split records (dayonerunlog.py `sr_get_split_info`, wrappers.py `StravaActivity.splits`)

A split dict `{total_distance, split_distance, total_time, split_time, split_pace,
total_pace}`.  In `sr_get_split_info` the two pace keys are absent until the final
for-loop adds them; the embedded records carry `0` placeholders until `finalizePace`
overwrites them.  Distances are in miles, times in seconds. -/

structure SplitRec where
  total_distance : ℚ
  split_distance : ℚ
  total_time : ℚ
  split_time : ℚ
  split_pace : ℚ
  total_pace : ℚ
deriving DecidableEq, Repr

/-- The final loop of `sr_get_split_info` (dayonerunlog.py:348-350):
`split['split_pace'] = split['split_time'] / split['split_distance']` and
`split['total_pace'] = split['total_time'] / split['total_distance']`.
(Python float division of a nonzero by zero yields inf; `ℚ` division by zero
yields 0.  No claim concerns the pace fields.) -/
def finalizePace (r : SplitRec) : SplitRec :=
  { r with split_pace := r.split_time / r.split_distance,
           total_pace := r.total_time / r.total_distance }

/-- The mutable loop state of `sr_get_split_info` (dayonerunlog.py:318-321):
`next_split` (miles), `prev_time` (seconds), `prev_distance` (miles) and
`last_split` (the sample index of the most recent split emission, initially 0). -/
structure SrState where
  next_split : ℚ
  prev_time : ℚ
  prev_distance : ℚ
  last_split : Nat
deriving DecidableEq, Repr

/-- One iteration of the for-loop of `sr_get_split_info` (dayonerunlog.py:323-337)
on the sample with distance `d` (kilometers) at index `idx`: when
`distance > next_split` (pint compares across units, i.e. `toMiles d > next_split`)
a record `{total_distance: next_split, split_distance: split_interval,
total_time: cur_time, split_time: cur_time - prev_time}` is appended and the
state advances; otherwise nothing happens. -/
def srStep (clocks : List ℚ) (si : ℚ) (d : ℚ) (idx : Nat) (st : SrState) :
    List SplitRec × SrState :=
  if toMiles d > st.next_split then
    let curTime := clocks.getD idx 0
    ([⟨st.next_split, si, curTime, curTime - st.prev_time, 0, 0⟩],
     ⟨st.next_split + si, curTime, st.next_split, idx⟩)
  else ([], st)

/-- The whole for-loop of `sr_get_split_info` over the distance series
(dayonerunlog.py:323-337), threading the state; `idx` is `element_idx`. -/
def srWalk (clocks : List ℚ) (si : ℚ) : List ℚ → Nat → SrState → List SplitRec × SrState
  | [], _, st => ([], st)
  | d :: ds, idx, st =>
    let p := srStep clocks si d idx st
    let q := srWalk clocks si ds (idx + 1) p.2
    (p.1 ++ q.1, q.2)

/-- The state at dayonerunlog.py:318-321 before the loop:
`next_split = split_interval`, `prev_time = 0`, `prev_distance = 0`,
`last_split = element_idx = 0`. -/
def initialSrState (si : ℚ) : SrState := ⟨si, 0, 0, 0⟩

/-- The full walking phase on a distance/clock series. -/
def srWalkFull (dists clocks : List ℚ) (si : ℚ) : List SplitRec × SrState :=
  srWalk clocks si dists 0 (initialSrState si)

/-- The trailing partial split of `sr_get_split_info` (dayonerunlog.py:340-346):
`total_distance` is the final distance sample converted to miles, `total_time`
the final clock sample, and the `split_*` fields subtract the loop's
`prev_distance`/`prev_time`. -/
def trailingSplit (dists clocks : List ℚ) (st : SrState) : SplitRec :=
  ⟨toMiles (dists.getD (dists.length - 1) 0),
   toMiles (dists.getD (dists.length - 1) 0) - st.prev_distance,
   clocks.getD (clocks.length - 1) 0,
   clocks.getD (clocks.length - 1) 0 - st.prev_time,
   0, 0⟩

/-- A Smashrun activity detail record as consumed by `sr_get_split_info`:
`recordingKeys` names the channels and `recordingValues` holds one value row per
key (synchronized by index).  Distances are kilometers, clock values seconds. -/
structure Details where
  recordingKeys : List String
  recordingValues : List (List ℚ)
deriving DecidableEq, Repr

/-- The `indices` dict built at dayonerunlog.py:306-310: `indices[key] = idx`
for each key in order, so a duplicate key keeps its **last** index.
`lastIdxOf keys k` is `indices[k]` (`none` when the key is absent). -/
def lastIdxOf : List String → String → Option Nat
  | [], _ => none
  | x :: xs, k =>
    match lastIdxOf xs k with
    | some j => some (j + 1)
    | none => if x = k then some 0 else none

/-- `sr_get_split_info` (dayonerunlog.py:305-352, identically dayonerun.py:219-266):
returns `none` when the `distance` or `clock` channel is missing; otherwise walks
the distance series, optionally appends the trailing partial split when
`last_split + 1 < len(distances)`, and fills in the pace fields. -/
def sr_get_split_info (details : Details) (si : ℚ) : Option (List SplitRec) :=
  match lastIdxOf details.recordingKeys "distance" with
  | none => none
  | some di =>
    match lastIdxOf details.recordingKeys "clock" with
    | none => none
    | some ci =>
      let dists := details.recordingValues.getD di []
      let clocks := details.recordingValues.getD ci []
      let w := srWalkFull dists clocks si
      let base :=
        if w.2.last_split + 1 < dists.length then w.1 ++ [trailingSplit dists clocks w.2]
        else w.1
      some (base.map finalizePace)

/-! ## The pre-computed Strava split path (wrappers.py `StravaActivity.splits`, 224-242)

Each raw entry of `details['splits_standard']` carries a distance in meters and a
moving time in seconds; the property accumulates `total_distance`/`total_time`
and computes the pace fields directly. -/

structure StSplitRaw where
  distance : ℚ
  moving_time : ℚ
deriving DecidableEq, Repr

/-- The accumulation loop of `StravaActivity.splits` (wrappers.py:230-242) with
accumulators `total_distance` (miles) and `total_time` (seconds). -/
def stravaSplitsAux : List StSplitRaw → ℚ → ℚ → List SplitRec
  | [], _, _ => []
  | s :: rest, td, tt =>
    let sd := metersToMiles s.distance
    let stime := s.moving_time
    let td2 := td + sd
    let tt2 := tt + stime
    ⟨td2, sd, tt2, stime, stime / sd, tt2 / td2⟩ :: stravaSplitsAux rest td2 tt2

/-- `StravaActivity.splits` (wrappers.py:224-242): accumulators start at 0. -/
def strava_splits (raw : List StSplitRaw) : List SplitRec :=
  stravaSplitsAux raw 0 0

/-! ## Activities and recursive accumulation (wrappers.py `ActivityWrapper`, 67-116)

An `ActivityWrapper` owns `_badges`/`_photos`/`_tags` plus `linked_activities`,
into which the matcher appends merged secondary activities.  The accessors
`all_badges`/`all_photos`/`all_tags` pair the wrapper's own records with its
service and then recursively append every linked activity's accumulation
(`badges.extend(a.badges)` etc.).  `start` is seconds (timestamps resolved to a
common zone), `distance` meters; `service` is the owning service's id string. -/

inductive Activity : Type where
  | mk (id : Nat) (start : ℚ) (distance : ℚ) (service : String)
       (own_badges : List String) (own_photos : List String) (own_tags : List String)
       (linked_activities : List Activity)

def Activity.id : Activity → Nat
  | .mk i _ _ _ _ _ _ _ => i

def Activity.start : Activity → ℚ
  | .mk _ s _ _ _ _ _ _ => s

def Activity.distance : Activity → ℚ
  | .mk _ _ d _ _ _ _ _ => d

def Activity.service : Activity → String
  | .mk _ _ _ sv _ _ _ _ => sv

def Activity.own_badges : Activity → List String
  | .mk _ _ _ _ bs _ _ _ => bs

def Activity.own_photos : Activity → List String
  | .mk _ _ _ _ _ ps _ _ => ps

def Activity.own_tags : Activity → List String
  | .mk _ _ _ _ _ _ ts _ => ts

def Activity.linked_activities : Activity → List Activity
  | .mk _ _ _ _ _ _ _ ls => ls

mutual

/-- `ActivityWrapper.all_badges` (wrappers.py:78-82): own badges paired with the
owning service, then each linked activity's recursive accumulation. -/
def Activity.all_badges : Activity → List (String × String)
  | .mk _ _ _ sv bs _ _ ls => (bs.map fun b => (sv, b)) ++ Activity.all_badges_list ls

/-- `for a in self.linked_activities: badges.extend(a.badges)`. -/
def Activity.all_badges_list : List Activity → List (String × String)
  | [] => []
  | a :: as => Activity.all_badges a ++ Activity.all_badges_list as

end

mutual

/-- `ActivityWrapper.all_photos` (wrappers.py:84-88). -/
def Activity.all_photos : Activity → List (String × String)
  | .mk _ _ _ sv _ ps _ ls => (ps.map fun p => (sv, p)) ++ Activity.all_photos_list ls

def Activity.all_photos_list : List Activity → List (String × String)
  | [] => []
  | a :: as => Activity.all_photos a ++ Activity.all_photos_list as

end

mutual

/-- `ActivityWrapper.all_tags` (wrappers.py:90-94). -/
def Activity.all_tags : Activity → List (String × String)
  | .mk _ _ _ sv _ _ ts ls => (ts.map fun t => (sv, t)) ++ Activity.all_tags_list ls

def Activity.all_tags_list : List Activity → List (String × String)
  | [] => []
  | a :: as => Activity.all_tags a ++ Activity.all_tags_list as

end

/-- The merge step of `ServiceWrapper.merge_service` (wrappers.py:370):
`self.activities[matched_id].linked_activities.append(activity)`. -/
def Activity.merge_append : Activity → Activity → Activity
  | .mk i s d sv bs ps ts ls, a => .mk i s d sv bs ps ts (ls ++ [a])

/-! ## The matcher (wrappers.py `ServiceWrapper.match_activity`, 325-360)

`config['matched_activities']` is a list of manual-override entries, each a dict
from service id to that service's activity id (modelled as an association list;
dict keys are unique, lookup takes the first binding).  The duplicate-entry
`assert` at wrappers.py:332 aborts the run; the spec's error taxonomy calls this
failure a `ConfigError`. -/

inductive ConfigError : Type where
  | duplicateManualMatch
deriving DecidableEq, Repr

structure MatchConfig where
  matched_activities : List (List (String × Nat))
  max_start_time_delta_in_secs : ℚ
  max_distance_delta_in_meters : ℚ

/-- Default threshold `CFG_START_TIME_THRESHOLD_IN_SECS` (dayonerunlog.py:68). -/
def CFG_START_TIME_THRESHOLD_IN_SECS : ℚ := 90

/-- Default threshold `CFG_DISTANCE_THRESHOLD_IN_METERS` (dayonerunlog.py:69). -/
def CFG_DISTANCE_THRESHOLD_IN_METERS : ℚ := 150

/-- One iteration of the manual-override loop (wrappers.py:328-333) on `entry`:
if `service.id in entry and entry[service.id] == activity.id` and
`self.id in entry`, then `assert matched_id is None` and set
`matched_id = entry[self.id]`.  `secId` is the secondary service's id,
`priId` the primary's, `aid` the secondary activity's id. -/
def manual_step (secId priId : String) (aid : Nat)
    (acc : Except ConfigError (Option Nat)) (entry : List (String × Nat)) :
    Except ConfigError (Option Nat) :=
  match acc with
  | .error e => .error e
  | .ok m =>
    match entry.lookup secId with
    | none => .ok m
    | some v =>
      if v = aid then
        match entry.lookup priId with
        | none => .ok m
        | some pid => if m.isSome then .error .duplicateManualMatch else .ok (some pid)
      else .ok m

/-- The proximity-fallback loop (wrappers.py:336-359) over the primary
collection's stored activities: the first candidate with
`abs(time_delta) < max_start_time_delta_in_secs` and
`abs(distance_delta) < max_distance_delta_in_meters` wins (`break`). -/
def proximity_scan (cfg : MatchConfig) (a : Activity) : List Activity → Option Nat
  | [] => none
  | c :: cs =>
    if |a.start - c.start| < cfg.max_start_time_delta_in_secs then
      if |a.distance - c.distance| < cfg.max_distance_delta_in_meters then some c.id
      else proximity_scan cfg a cs
    else proximity_scan cfg a cs

/-- `ServiceWrapper.match_activity` (wrappers.py:325-360): the manual-override
scan over `config['matched_activities']` first (the duplicate assert aborting),
then, only when it produced nothing, the proximity scan over the primary
collection's stored (oldest-to-newest) activity order. -/
def match_activity (cfg : MatchConfig) (priId secId : String)
    (primaryActs : List Activity) (a : Activity) : Except ConfigError (Option Nat) :=
  match cfg.matched_activities.foldl (manual_step secId priId a.id) (.ok none) with
  | .error e => .error e
  | .ok (some pid) => .ok (some pid)
  | .ok none => .ok (proximity_scan cfg a primaryActs)

/-! ## Download ordering (wrappers.py 435-487) -/

/-- A raw activity record as returned by a remote service, reduced to the
fields the download-ordering logic reads. -/
structure RawActivity where
  id : Nat
  start : ℚ
  activityType : String
deriving DecidableEq, Repr

/-- `activity_type_map = {'running': 'run'}` with `setdefault(atype, None)`
(wrappers.py:436,449). -/
def smashrun_activity_type_map (t : String) : Option String :=
  if t = "running" then some "run" else none

/-- Stable insertion of `a` after every element whose start is not later:
`insertByStart` and `sortByStart` together model Python's stable
`sorted(activities, key=start_time)`. -/
def insertByStart (a : RawActivity) : List RawActivity → List RawActivity
  | [] => [a]
  | b :: bs => if b.start ≤ a.start then b :: insertByStart a bs else a :: b :: bs

/-- Stable sort by start time, oldest first (insertion sort; Python's `sorted`
is stable, and any stable sort by the same key produces the same list). -/
def sortByStart : List RawActivity → List RawActivity
  | [] => []
  | a :: as => insertByStart a (sortByStart as)

/-- `SmashrunWrapper.download_activities` (wrappers.py:435-464): keep records not
after `stop` whose mapped type is allowed, then store them sorted oldest to
newest by start time (`sorted(activities, key=start_time)`, a stable sort, into
an insertion-ordered dict; activity ids are unique within a service). -/
def smashrun_download_activities (stop : ℚ) (activity_types : List String)
    (raws : List RawActivity) : List RawActivity :=
  let kept := raws.filter fun r =>
    decide (r.start ≤ stop) &&
      (match smashrun_activity_type_map r.activityType with
       | some b => activity_types.contains b
       | none => false)
  sortByStart kept

/-- `StravaWrapper.download_activities` (wrappers.py:471-487): every fetched
record is appended and stored **in the order the remote service returned it**;
the `sorted(...)` call at wrappers.py:484 is commented out, although the
comment above it (wrappers.py:482) still reads "Store sorted oldest to newest". -/
def strava_download_activities (raws : List RawActivity) : List RawActivity :=
  raws

/-! ## Temp-photo cleanup (dayonerunlog.py 576-611, identically dayonerun.py 500-528) -/

/-- A processed run, reduced to its `__photos` list of temp-file names. -/
structure Run where
  photos : List String
deriving DecidableEq, Repr

/-- `cleanup_runs` (dayonerunlog.py:576-580): `os.unlink` every photo of every
run.  Modelled on the set of existing temp files: the files surviving are those
not listed as a photo of any run. -/
def cleanup_runs (runs : List Run) (files : List String) : List String :=
  files.filter fun f => !(runs.any fun r => r.photos.contains f)

/-- The `finally` block of `main` (dayonerunlog.py:608-609) executes
`cleanup_runs(runs)` — but `runs` is bound to `[]` at dayonerunlog.py:584 and
never reassigned (the downloaded runs are bound to `sr_runs` at line 591), so on
every exit path the cleanup runs over the empty list, whatever was downloaded. -/
def main_finally_cleanup (_sr_runs : List Run) (files : List String) : List String :=
  cleanup_runs [] files

/-! ## Lemmas about the manual-override fold -/

/-- `entry` applies to a secondary activity id: the entry maps the secondary
service's id to that activity id and contains a primary-service id. -/
def appliesEntry (secId priId : String) (aid : Nat) (e : List (String × Nat)) : Prop :=
  e.lookup secId = some aid ∧ (e.lookup priId).isSome

instance (secId priId : String) (aid : Nat) (e : List (String × Nat)) :
    Decidable (appliesEntry secId priId aid e) := by
  unfold appliesEntry; infer_instance

lemma manual_step_error (secId priId : String) (aid : Nat) (e : ConfigError)
    (x : List (String × Nat)) :
    manual_step secId priId aid (.error e) x = .error e := rfl

lemma manual_foldl_error (secId priId : String) (aid : Nat) (e : ConfigError)
    (l : List (List (String × Nat))) :
    l.foldl (manual_step secId priId aid) (.error e) = .error e := by
  induction l with
  | nil => rfl
  | cons x xs ih => simpa [manual_step_error] using ih

lemma manual_step_not_applies (secId priId : String) (aid : Nat)
    (x : List (String × Nat)) (hx : ¬ appliesEntry secId priId aid x) (m : Option Nat) :
    manual_step secId priId aid (.ok m) x = .ok m := by
  unfold manual_step
  cases hs : x.lookup secId with
  | none => rfl
  | some v =>
    by_cases hv : v = aid
    · subst hv
      cases hp : x.lookup priId with
      | none => simp
      | some pid => exact absurd ⟨hs, by simp [hp]⟩ hx
    · simp [hv]

lemma manual_foldl_not_applies (secId priId : String) (aid : Nat)
    (l : List (List (String × Nat))) (hl : ∀ x ∈ l, ¬ appliesEntry secId priId aid x)
    (m : Option Nat) :
    l.foldl (manual_step secId priId aid) (.ok m) = .ok m := by
  induction l with
  | nil => rfl
  | cons x xs ih =>
    rw [List.foldl_cons, manual_step_not_applies secId priId aid x (hl x (by simp)) m]
    exact ih fun y hy => hl y (by simp [hy])

lemma manual_step_applies_some (secId priId : String) (aid : Nat)
    (x : List (String × Nat)) (hx : appliesEntry secId priId aid x) (p : Nat) :
    manual_step secId priId aid (.ok (some p)) x = .error .duplicateManualMatch := by
  obtain ⟨hs, hp⟩ := hx
  obtain ⟨pid, hpid⟩ := Option.isSome_iff_exists.mp hp
  unfold manual_step
  simp [hs, hpid]

lemma manual_step_applies_none (secId priId : String) (aid pid : Nat)
    (x : List (String × Nat)) (hs : x.lookup secId = some aid)
    (hp : x.lookup priId = some pid) :
    manual_step secId priId aid (.ok none) x = .ok (some pid) := by
  unfold manual_step
  simp [hs, hp]

lemma manual_foldl_from_some (secId priId : String) (aid : Nat)
    (l : List (List (String × Nat))) (p : Nat) :
    l.foldl (manual_step secId priId aid) (.ok (some p)) = .ok (some p)
  ∨ l.foldl (manual_step secId priId aid) (.ok (some p)) = .error .duplicateManualMatch := by
  induction l with
  | nil => exact .inl rfl
  | cons x xs ih =>
    by_cases hx : appliesEntry secId priId aid x
    · rw [List.foldl_cons, manual_step_applies_some secId priId aid x hx p,
        manual_foldl_error]
      exact .inr rfl
    · rw [List.foldl_cons, manual_step_not_applies secId priId aid x hx (some p)]
      exact ih

lemma except_shape (r : Except ConfigError (Option Nat)) :
    r = .error .duplicateManualMatch ∨ ∃ m, r = .ok m := by
  cases r with
  | error e => cases e; exact .inl rfl
  | ok m => exact .inr ⟨m, rfl⟩

/-! ## Lemmas about the proximity scan -/

lemma proximity_scan_eq_find? (cfg : MatchConfig) (a : Activity) (l : List Activity) :
    proximity_scan cfg a l =
      (l.find? fun c =>
          decide (|a.start - c.start| < cfg.max_start_time_delta_in_secs)
            && decide (|a.distance - c.distance| < cfg.max_distance_delta_in_meters)).map
        Activity.id := by
  induction l with
  | nil => rfl
  | cons c cs ih =>
    by_cases h1 : |a.start - c.start| < cfg.max_start_time_delta_in_secs
    · by_cases h2 : |a.distance - c.distance| < cfg.max_distance_delta_in_meters
      · simp [proximity_scan, List.find?_cons, h1, h2]
      · simp [proximity_scan, List.find?_cons, h1, h2, ih]
    · simp [proximity_scan, List.find?_cons, h1, ih]

/-! ## C1 -/

/-- C1: when no manual-override entry applies to the secondary activity,
`match_activity` returns the id of the **first** primary activity, in the
collection's stored iteration order, whose absolute start-time difference is
strictly below the configured start-time threshold and whose absolute distance
difference is strictly below the configured distance threshold (`List.find?`
yields the first such element, so a later closer candidate is never preferred).
In particular, under the default thresholds (90 s, 150 m,
dayonerunlog.py:68-69), a secondary activity starting 60 s away with an 80 m
distance difference matches the primary. -/
theorem match_activity_proximity_first_match (cfg : MatchConfig) (priId secId : String)
    (acts : List Activity) (a : Activity)
    (hman : ∀ e ∈ cfg.matched_activities, ¬ appliesEntry secId priId a.id e) :
    match_activity cfg priId secId acts a =
      .ok ((acts.find? fun c =>
          decide (|a.start - c.start| < cfg.max_start_time_delta_in_secs)
            && decide (|a.distance - c.distance| < cfg.max_distance_delta_in_meters)).map
        Activity.id)
  ∧ ∀ (t d : ℚ) (i j : Nat),
      match_activity
        ⟨[], CFG_START_TIME_THRESHOLD_IN_SECS, CFG_DISTANCE_THRESHOLD_IN_METERS⟩
        priId secId [Activity.mk i t d "smashrun" [] [] [] []]
        (Activity.mk j (t + 60) (d + 80) "strava" [] [] [] []) = .ok (some i) := by
  constructor
  · unfold match_activity
    rw [manual_foldl_not_applies secId priId a.id cfg.matched_activities hman none,
      proximity_scan_eq_find?]
  · intro t d i j
    unfold match_activity
    rw [List.foldl_nil]
    have h1 : |Activity.start (Activity.mk j (t + 60) (d + 80) "strava" [] [] [] []) -
        Activity.start (Activity.mk i t d "smashrun" [] [] [] [])| = 60 := by
      simp only [Activity.start]
      rw [show t + 60 - t = (60 : ℚ) by ring]
      norm_num
    have h2 : |Activity.distance (Activity.mk j (t + 60) (d + 80) "strava" [] [] [] []) -
        Activity.distance (Activity.mk i t d "smashrun" [] [] [] [])| = 80 := by
      simp only [Activity.distance]
      rw [show d + 80 - d = (80 : ℚ) by ring]
      norm_num
    unfold proximity_scan
    rw [if_pos, if_pos]
    · rfl
    · rw [h2]; norm_num [CFG_DISTANCE_THRESHOLD_IN_METERS]
    · rw [h1]; norm_num [CFG_START_TIME_THRESHOLD_IN_SECS]

/-- Witness for C1: a concrete scenario with an empty manual map, a primary
collection of two activities both within the thresholds, and the first one
winning; plus the default-threshold 60 s / 80 m example. -/
theorem match_activity_proximity_first_match_witness :
    match_activity ⟨[], 90, 150⟩ "smashrun" "strava"
        [Activity.mk 11 0 10000 "smashrun" [] [] [] [],
         Activity.mk 12 30 10040 "smashrun" [] [] [] []]
        (Activity.mk 21 60 10080 "strava" [] [] [] []) =
      .ok ((([Activity.mk 11 0 10000 "smashrun" [] [] [] [],
          Activity.mk 12 30 10040 "smashrun" [] [] [] []] : List Activity).find? fun c =>
          decide (|Activity.start (Activity.mk 21 60 10080 "strava" [] [] [] []) - c.start| <
              (90 : ℚ))
            && decide
              (|Activity.distance (Activity.mk 21 60 10080 "strava" [] [] [] []) - c.distance| <
                (150 : ℚ))).map Activity.id)
  ∧ match_activity ⟨[], CFG_START_TIME_THRESHOLD_IN_SECS, CFG_DISTANCE_THRESHOLD_IN_METERS⟩
        "smashrun" "strava" [Activity.mk 11 0 10000 "smashrun" [] [] [] []]
        (Activity.mk 21 (0 + 60) (10000 + 80) "strava" [] [] [] []) = .ok (some 11) := by
  have h := match_activity_proximity_first_match ⟨[], 90, 150⟩ "smashrun" "strava"
    [Activity.mk 11 0 10000 "smashrun" [] [] [] [],
     Activity.mk 12 30 10040 "smashrun" [] [] [] []]
    (Activity.mk 21 60 10080 "strava" [] [] [] []) (by intro e he; simp at he)
  exact ⟨h.1, h.2 0 10000 11 21⟩

/-! ## C2 -/

/-- C2: when exactly one manual-override entry applies to the secondary
activity's id and that entry carries primary id `pid`, `match_activity` returns
`pid` directly for **every** primary collection — the result does not depend on
the primary activities at all, so no time/distance proximity check can override
the manual designation, even when a closer proximity candidate exists. -/
theorem match_activity_manual_precedence (cfg : MatchConfig) (priId secId : String)
    (a : Activity) (pid : Nat) (e : List (String × Nat)) (l1 l2 : List (List (String × Nat)))
    (hsplit : cfg.matched_activities = l1 ++ e :: l2)
    (hsec : e.lookup secId = some a.id) (hpri : e.lookup priId = some pid)
    (hothers : ∀ x ∈ l1 ++ l2, ¬ appliesEntry secId priId a.id x) :
    ∀ acts : List Activity, match_activity cfg priId secId acts a = .ok (some pid) := by
  intro acts
  unfold match_activity
  rw [hsplit, List.foldl_append, List.foldl_cons,
    manual_foldl_not_applies secId priId a.id l1
      (fun y hy => hothers y (by simp [hy])) none,
    manual_step_applies_none secId priId a.id pid e hsec hpri,
    manual_foldl_not_applies secId priId a.id l2
      (fun y hy => hothers y (by simp [hy])) (some pid)]

/-- Witness for C2: a manual map with one entry pairing strava activity 21 with
smashrun activity 99 forces the match to 99, although primary activity 11 is a
perfect proximity candidate (0 s, 0 m away). -/
theorem match_activity_manual_precedence_witness :
    match_activity ⟨[[("strava", 21), ("smashrun", 99)]], 90, 150⟩ "smashrun" "strava"
      [Activity.mk 11 60 10080 "smashrun" [] [] [] []]
      (Activity.mk 21 60 10080 "strava" [] [] [] []) = .ok (some 99) :=
  match_activity_manual_precedence ⟨[[("strava", 21), ("smashrun", 99)]], 90, 150⟩
    "smashrun" "strava" (Activity.mk 21 60 10080 "strava" [] [] [] []) 99
    [("strava", 21), ("smashrun", 99)] [] [] rfl rfl rfl (by intro x hx; simp at hx)
    [Activity.mk 11 60 10080 "smashrun" [] [] [] []]

/-! ## C5 -/

/-- C5: if two manual-override entries both claim primary id `pid` for the same
secondary activity id, `match_activity` aborts with the configuration error
(realized in the source as the `assert` at wrappers.py:332) instead of silently
choosing one of the entries — for every primary collection. -/
theorem match_activity_duplicate_manual_error (cfg : MatchConfig) (priId secId : String)
    (a : Activity) (pid : Nat) (e1 e2 : List (String × Nat))
    (l1 l2 l3 : List (List (String × Nat)))
    (hsplit : cfg.matched_activities = l1 ++ e1 :: (l2 ++ e2 :: l3))
    (h1s : e1.lookup secId = some a.id) (h1p : e1.lookup priId = some pid)
    (h2s : e2.lookup secId = some a.id) (h2p : e2.lookup priId = some pid) :
    ∀ acts : List Activity,
      match_activity cfg priId secId acts a = .error .duplicateManualMatch := by
  intro acts
  unfold match_activity
  rw [hsplit, List.foldl_append, List.foldl_cons]
  rcases except_shape (l1.foldl (manual_step secId priId a.id) (.ok none)) with h | ⟨m, h⟩
  · rw [h, manual_step_error, manual_foldl_error]
  · rw [h]
    cases m with
    | some p =>
      rw [manual_step_applies_some secId priId a.id e1 ⟨h1s, by simp [h1p]⟩ p,
        manual_foldl_error]
    | none =>
      rw [manual_step_applies_none secId priId a.id pid e1 h1s h1p, List.foldl_append,
        List.foldl_cons]
      rcases manual_foldl_from_some secId priId a.id l2 pid with h2 | h2
      · rw [h2, manual_step_applies_some secId priId a.id e2 ⟨h2s, by simp [h2p]⟩ pid,
          manual_foldl_error]
      · rw [h2, manual_step_error, manual_foldl_error]

/-- Witness for C5: two entries both mapping strava activity 21 to smashrun
activity 99 abort the match. -/
theorem match_activity_duplicate_manual_error_witness :
    match_activity
      ⟨[[("strava", 21), ("smashrun", 99)], [("strava", 21), ("smashrun", 99)]], 90, 150⟩
      "smashrun" "strava" [Activity.mk 11 60 10080 "smashrun" [] [] [] []]
      (Activity.mk 21 60 10080 "strava" [] [] [] []) = .error .duplicateManualMatch :=
  match_activity_duplicate_manual_error
    ⟨[[("strava", 21), ("smashrun", 99)], [("strava", 21), ("smashrun", 99)]], 90, 150⟩
    "smashrun" "strava" (Activity.mk 21 60 10080 "strava" [] [] [] []) 99
    [("strava", 21), ("smashrun", 99)] [("strava", 21), ("smashrun", 99)] [] [] []
    rfl rfl rfl rfl rfl [Activity.mk 11 60 10080 "smashrun" [] [] [] []]

/-! ## C7 -/

lemma all_badges_list_append (l1 l2 : List Activity) :
    Activity.all_badges_list (l1 ++ l2) =
      Activity.all_badges_list l1 ++ Activity.all_badges_list l2 := by
  induction l1 with
  | nil => simp [Activity.all_badges_list]
  | cons a as ih => simp [Activity.all_badges_list, ih]

lemma all_photos_list_append (l1 l2 : List Activity) :
    Activity.all_photos_list (l1 ++ l2) =
      Activity.all_photos_list l1 ++ Activity.all_photos_list l2 := by
  induction l1 with
  | nil => simp [Activity.all_photos_list]
  | cons a as ih => simp [Activity.all_photos_list, ih]

lemma all_tags_list_append (l1 l2 : List Activity) :
    Activity.all_tags_list (l1 ++ l2) =
      Activity.all_tags_list l1 ++ Activity.all_tags_list l2 := by
  induction l1 with
  | nil => simp [Activity.all_tags_list]
  | cons a as ih => simp [Activity.all_tags_list, ih]

/-- C7: after the merge step of `merge_service` appends a matched secondary
activity `s` (which, as a secondary, has no linked activities of its own) to a
primary activity `p`, the accumulated `badges`, `photos` and `tags` of the
primary are exactly its previous accumulation followed by each of `s`'s own
entries exactly once, each paired with `s`'s originating service. -/
theorem merge_append_roundtrip (p s : Activity) (hs : s.linked_activities = []) :
    (p.merge_append s).all_badges =
        p.all_badges ++ (s.own_badges.map fun b => (s.service, b))
  ∧ (p.merge_append s).all_photos =
        p.all_photos ++ (s.own_photos.map fun x => (s.service, x))
  ∧ (p.merge_append s).all_tags =
        p.all_tags ++ (s.own_tags.map fun t => (s.service, t)) := by
  cases p with
  | mk i st d sv bs ps ts ls =>
    cases s with
    | mk i2 st2 d2 sv2 bs2 ps2 ts2 ls2 =>
      simp only [Activity.linked_activities] at hs
      subst hs
      refine ⟨?_, ?_, ?_⟩ <;>
        simp [Activity.merge_append, Activity.all_badges, Activity.all_photos,
          Activity.all_tags, Activity.own_badges, Activity.own_photos, Activity.own_tags,
          Activity.service, all_badges_list_append, all_photos_list_append,
          all_tags_list_append, Activity.all_badges_list, Activity.all_photos_list,
          Activity.all_tags_list]

/-- Witness for C7: a concrete primary (with one pre-existing linked activity)
and a concrete secondary. -/
theorem merge_append_roundtrip_witness :
    ((Activity.mk 11 0 10000 "smashrun" ["b1"] ["ph1"] ["smashrun"]
        [Activity.mk 31 0 10000 "garmin" ["b0"] [] ["garmin"] []]).merge_append
          (Activity.mk 21 60 10080 "strava" ["b2"] ["ph2"] ["strava"] [])).all_badges =
      (Activity.mk 11 0 10000 "smashrun" ["b1"] ["ph1"] ["smashrun"]
        [Activity.mk 31 0 10000 "garmin" ["b0"] [] ["garmin"] []]).all_badges ++
        [("strava", "b2")]
  ∧ ((Activity.mk 11 0 10000 "smashrun" ["b1"] ["ph1"] ["smashrun"]
        [Activity.mk 31 0 10000 "garmin" ["b0"] [] ["garmin"] []]).merge_append
          (Activity.mk 21 60 10080 "strava" ["b2"] ["ph2"] ["strava"] [])).all_photos =
      (Activity.mk 11 0 10000 "smashrun" ["b1"] ["ph1"] ["smashrun"]
        [Activity.mk 31 0 10000 "garmin" ["b0"] [] ["garmin"] []]).all_photos ++
        [("strava", "ph2")]
  ∧ ((Activity.mk 11 0 10000 "smashrun" ["b1"] ["ph1"] ["smashrun"]
        [Activity.mk 31 0 10000 "garmin" ["b0"] [] ["garmin"] []]).merge_append
          (Activity.mk 21 60 10080 "strava" ["b2"] ["ph2"] ["strava"] [])).all_tags =
      (Activity.mk 11 0 10000 "smashrun" ["b1"] ["ph1"] ["smashrun"]
        [Activity.mk 31 0 10000 "garmin" ["b0"] [] ["garmin"] []]).all_tags ++
        [("strava", "strava")] :=
  merge_append_roundtrip
    (Activity.mk 11 0 10000 "smashrun" ["b1"] ["ph1"] ["smashrun"]
      [Activity.mk 31 0 10000 "garmin" ["b0"] [] ["garmin"] []])
    (Activity.mk 21 60 10080 "strava" ["b2"] ["ph2"] ["strava"] []) rfl

/-! ## C8 -/

/-- C8 (code bug): the `finally` block of `main` does execute on every exit
path, but it cleans `runs`, which is initialized to `[]` at dayonerunlog.py:584
and never reassigned — the downloaded runs live in `sr_runs`.  Evaluated at a
run owning the temp photo file "photo_tmp": the file survives `main`'s cleanup,
although `cleanup_runs` applied to the actual run list would have deleted it. -/
theorem main_cleanup_leaves_temp_files :
    main_finally_cleanup [⟨["photo_tmp"]⟩] ["photo_tmp"] = ["photo_tmp"]
  ∧ cleanup_runs [⟨["photo_tmp"]⟩] ["photo_tmp"] = [] := by
  exact ⟨rfl, rfl⟩

/-! ## C9 -/

/-- C9 (code bug): `StravaWrapper.download_activities` stores its activities in
the order the remote service returned them — the sort is commented out at
wrappers.py:484 while the comment above it still says "Store sorted oldest to
newest".  With raw records returned newest-first, the stored Strava collection
is newest-first, violating the oldest-to-newest invariant; the Smashrun
collection, which does sort (wrappers.py:461), stores the same records
oldest-first. -/
theorem strava_download_not_sorted :
    strava_download_activities [⟨1, 100, "running"⟩, ⟨2, 50, "running"⟩] =
      [⟨1, 100, "running"⟩, ⟨2, 50, "running"⟩]
  ∧ ¬ List.Chain' (fun a b : RawActivity => a.start ≤ b.start)
        (strava_download_activities [⟨1, 100, "running"⟩, ⟨2, 50, "running"⟩])
  ∧ smashrun_download_activities 1000 ["run"] [⟨1, 100, "running"⟩, ⟨2, 50, "running"⟩] =
      [⟨2, 50, "running"⟩, ⟨1, 100, "running"⟩] := by
  refine ⟨rfl, ?_, by decide⟩
  simp [strava_download_activities, List.chain'_cons, RawActivity.start]
  norm_num

/-! ## Lemmas about the split-calculator walk -/

lemma srWalk_nil (clocks : List ℚ) (si : ℚ) (idx : Nat) (st : SrState) :
    srWalk clocks si [] idx st = ([], st) := rfl

lemma srWalk_cons_pos (clocks : List ℚ) (si d : ℚ) (ds : List ℚ) (idx : Nat) (st : SrState)
    (h : toMiles d > st.next_split) :
    srWalk clocks si (d :: ds) idx st =
      (⟨st.next_split, si, clocks.getD idx 0, clocks.getD idx 0 - st.prev_time, 0, 0⟩ ::
          (srWalk clocks si ds (idx + 1)
            ⟨st.next_split + si, clocks.getD idx 0, st.next_split, idx⟩).1,
        (srWalk clocks si ds (idx + 1)
          ⟨st.next_split + si, clocks.getD idx 0, st.next_split, idx⟩).2) := by
  simp [srWalk, srStep, if_pos h]

lemma srWalk_cons_neg (clocks : List ℚ) (si d : ℚ) (ds : List ℚ) (idx : Nat) (st : SrState)
    (h : ¬ toMiles d > st.next_split) :
    srWalk clocks si (d :: ds) idx st = srWalk clocks si ds (idx + 1) st := by
  simp [srWalk, srStep, if_neg h]

lemma srWalk_length (clocks : List ℚ) (si : ℚ) :
    ∀ (ds : List ℚ) (idx : Nat) (st : SrState),
      (srWalk clocks si ds idx st).1.length ≤ ds.length := by
  intro ds
  induction ds with
  | nil => intro idx st; simp [srWalk_nil]
  | cons d ds ih =>
    intro idx st
    by_cases h : toMiles d > st.next_split
    · rw [srWalk_cons_pos clocks si d ds idx st h]
      simpa using ih (idx + 1) ⟨st.next_split + si, clocks.getD idx 0, st.next_split, idx⟩
    · rw [srWalk_cons_neg clocks si d ds idx st h]
      exact (ih (idx + 1) st).trans (by simp)

lemma srWalk_total_distance_get? (clocks : List ℚ) (si : ℚ) :
    ∀ (ds : List ℚ) (idx : Nat) (st : SrState) (j : Nat) (r : SplitRec),
      (srWalk clocks si ds idx st).1[j]? = some r →
      r.total_distance = st.next_split + j * si := by
  intro ds
  induction ds with
  | nil => intro idx st j r hr; rw [srWalk_nil] at hr; simp at hr
  | cons d ds ih =>
    intro idx st j r hr
    by_cases h : toMiles d > st.next_split
    · rw [srWalk_cons_pos clocks si d ds idx st h] at hr
      cases j with
      | zero =>
        rw [List.getElem?_cons_zero] at hr
        cases hr
        simp
      | succ j =>
        rw [List.getElem?_cons_succ] at hr
        have := ih (idx + 1) ⟨st.next_split + si, clocks.getD idx 0, st.next_split, idx⟩ j r hr
        simp only [SrState.next_split] at this
        rw [this]
        push_cast
        ring
    · rw [srWalk_cons_neg clocks si d ds idx st h] at hr
      exact ih (idx + 1) st j r hr

lemma srWalk_total_time_emit (clocks : List ℚ) (si : ℚ) :
    ∀ (ds : List ℚ) (idx : Nat) (st : SrState) (r : SplitRec),
      r ∈ (srWalk clocks si ds idx st).1 →
      ∃ i, i < ds.length ∧ r.total_time = clocks.getD (idx + i) 0 ∧
        r.total_distance < toMiles (ds.getD i 0) := by
  intro ds
  induction ds with
  | nil => intro idx st r hr; rw [srWalk_nil] at hr; simp at hr
  | cons d ds ih =>
    intro idx st r hr
    by_cases h : toMiles d > st.next_split
    · rw [srWalk_cons_pos clocks si d ds idx st h] at hr
      rcases List.mem_cons.mp hr with rfl | hr2
      · exact ⟨0, by simp, by simp, by simpa using h⟩
      · obtain ⟨i, hi, ht, hd⟩ := ih (idx + 1)
          ⟨st.next_split + si, clocks.getD idx 0, st.next_split, idx⟩ r hr2
        refine ⟨i + 1, by simpa using Nat.succ_lt_succ hi, ?_, by simpa using hd⟩
        rw [ht]
        congr 1
        omega
    · rw [srWalk_cons_neg clocks si d ds idx st h] at hr
      obtain ⟨i, hi, ht, hd⟩ := ih (idx + 1) st r hr
      refine ⟨i + 1, by simpa using Nat.succ_lt_succ hi, ?_, by simpa using hd⟩
      rw [ht]
      congr 1
      omega

lemma getD_mono_of_pairwise (l : List ℚ) (hl : List.Pairwise (· ≤ ·) l) (i j : Nat)
    (hij : i ≤ j) (hj : j < l.length) : l.getD i 0 ≤ l.getD j 0 := by
  rcases Nat.lt_or_ge i j with hlt | hge
  · have hi : i < l.length := lt_trans hlt hj
    rw [List.getD_eq_getElem l 0 hi, List.getD_eq_getElem l 0 hj]
    simpa using List.pairwise_iff_get.mp hl ⟨i, hi⟩ ⟨j, hj⟩ hlt
  · rw [le_antisymm hij hge]

lemma toMiles_mono {a b : ℚ} (hab : a ≤ b) : toMiles a ≤ toMiles b := by
  unfold toMiles
  exact (div_le_div_iff_of_pos_right (by norm_num [kmPerMile])).mpr hab

lemma srWalk_prev_time (clocks : List ℚ) (si : ℚ) :
    ∀ (ds : List ℚ) (idx : Nat) (st : SrState),
      (srWalk clocks si ds idx st).2.prev_time =
        ((srWalk clocks si ds idx st).1.getLast?).elim st.prev_time SplitRec.total_time := by
  intro ds
  induction ds with
  | nil => intro idx st; simp [srWalk_nil]
  | cons d ds ih =>
    intro idx st
    by_cases h : toMiles d > st.next_split
    · rw [srWalk_cons_pos clocks si d ds idx st h]
      have hrec := ih (idx + 1) ⟨st.next_split + si, clocks.getD idx 0, st.next_split, idx⟩
      cases hrest : (srWalk clocks si ds (idx + 1)
          ⟨st.next_split + si, clocks.getD idx 0, st.next_split, idx⟩).1 with
      | nil =>
        rw [hrest] at hrec
        simpa using hrec
      | cons r rs =>
        obtain ⟨x, hx⟩ := Option.isSome_iff_exists.mp
          (List.getLast?_isSome.mpr (List.cons_ne_nil r rs))
        rw [hrest, hx] at hrec
        simp only [Option.elim] at hrec
        rw [List.getLast?_cons_cons, hx]
        exact hrec
    · rw [srWalk_cons_neg clocks si d ds idx st h]
      exact ih (idx + 1) st

lemma srWalk_prev_distance (clocks : List ℚ) (si : ℚ) :
    ∀ (ds : List ℚ) (idx : Nat) (st : SrState),
      (srWalk clocks si ds idx st).2.prev_distance =
        ((srWalk clocks si ds idx st).1.getLast?).elim st.prev_distance
          SplitRec.total_distance := by
  intro ds
  induction ds with
  | nil => intro idx st; simp [srWalk_nil]
  | cons d ds ih =>
    intro idx st
    by_cases h : toMiles d > st.next_split
    · rw [srWalk_cons_pos clocks si d ds idx st h]
      have hrec := ih (idx + 1) ⟨st.next_split + si, clocks.getD idx 0, st.next_split, idx⟩
      cases hrest : (srWalk clocks si ds (idx + 1)
          ⟨st.next_split + si, clocks.getD idx 0, st.next_split, idx⟩).1 with
      | nil =>
        rw [hrest] at hrec
        simpa using hrec
      | cons r rs =>
        obtain ⟨x, hx⟩ := Option.isSome_iff_exists.mp
          (List.getLast?_isSome.mpr (List.cons_ne_nil r rs))
        rw [hrest, hx] at hrec
        simp only [Option.elim] at hrec
        rw [List.getLast?_cons_cons, hx]
        exact hrec
    · rw [srWalk_cons_neg clocks si d ds idx st h]
      exact ih (idx + 1) st

lemma srWalk_split_time_chain (clocks : List ℚ) (si : ℚ) :
    ∀ (ds : List ℚ) (idx : Nat) (st : SrState),
      (∀ r ∈ (srWalk clocks si ds idx st).1.head?,
          r.split_time = r.total_time - st.prev_time)
    ∧ List.Chain' (fun a b => b.split_time = b.total_time - a.total_time)
        (srWalk clocks si ds idx st).1 := by
  intro ds
  induction ds with
  | nil => intro idx st; simp [srWalk_nil]
  | cons d ds ih =>
    intro idx st
    by_cases h : toMiles d > st.next_split
    · rw [srWalk_cons_pos clocks si d ds idx st h]
      obtain ⟨ihh, ihc⟩ := ih (idx + 1) ⟨st.next_split + si, clocks.getD idx 0, st.next_split, idx⟩
      constructor
      · intro r hr
        simp only [List.head?_cons, Option.mem_def, Option.some.injEq] at hr
        subst hr
        rfl
      · rw [List.chain'_cons']
        refine ⟨fun y hy => ?_, ihc⟩
        simpa using ihh y hy
    · rw [srWalk_cons_neg clocks si d ds idx st h]
      exact ih (idx + 1) st

lemma srWalk_total_time_mono (clocks : List ℚ) (si : ℚ)
    (hc : List.Pairwise (· ≤ ·) clocks) :
    ∀ (ds : List ℚ) (idx : Nat) (st : SrState),
      idx + ds.length ≤ clocks.length →
      List.Chain' (fun a b => a.total_time ≤ b.total_time) (srWalk clocks si ds idx st).1 := by
  intro ds
  induction ds with
  | nil => intro idx st _; simp [srWalk_nil]
  | cons d ds ih =>
    intro idx st hb
    simp only [List.length_cons] at hb
    by_cases h : toMiles d > st.next_split
    · rw [srWalk_cons_pos clocks si d ds idx st h]
      rw [List.chain'_cons']
      refine ⟨fun y hy => ?_, ih (idx + 1) _ (by omega)⟩
      obtain ⟨i, hi, ht, _⟩ := srWalk_total_time_emit clocks si ds (idx + 1)
        ⟨st.next_split + si, clocks.getD idx 0, st.next_split, idx⟩ y
        (List.mem_of_mem_head? hy)
      rw [ht]
      simpa using getD_mono_of_pairwise clocks hc idx (idx + 1 + i) (by omega) (by omega)
    · rw [srWalk_cons_neg clocks si d ds idx st h]
      exact ih (idx + 1) st (by omega)

lemma finalizePace_total_distance (r : SplitRec) :
    (finalizePace r).total_distance = r.total_distance := rfl

lemma finalizePace_split_distance (r : SplitRec) :
    (finalizePace r).split_distance = r.split_distance := rfl

lemma finalizePace_total_time (r : SplitRec) :
    (finalizePace r).total_time = r.total_time := rfl

lemma finalizePace_split_time (r : SplitRec) :
    (finalizePace r).split_time = r.split_time := rfl

lemma sr_get_split_info_eq (details : Details) (si : ℚ) (di ci : Nat)
    (hdi : lastIdxOf details.recordingKeys "distance" = some di)
    (hci : lastIdxOf details.recordingKeys "clock" = some ci) :
    sr_get_split_info details si =
      some ((if (srWalkFull (details.recordingValues.getD di [])
                  (details.recordingValues.getD ci []) si).2.last_split + 1 <
                (details.recordingValues.getD di []).length
             then (srWalkFull (details.recordingValues.getD di [])
                    (details.recordingValues.getD ci []) si).1 ++
                  [trailingSplit (details.recordingValues.getD di [])
                    (details.recordingValues.getD ci [])
                    (srWalkFull (details.recordingValues.getD di [])
                      (details.recordingValues.getD ci []) si).2]
             else (srWalkFull (details.recordingValues.getD di [])
                    (details.recordingValues.getD ci []) si).1).map finalizePace) := by
  unfold sr_get_split_info
  rw [hdi, hci]

lemma srWalkFull_head_split_time (dists clocks : List ℚ) (si : ℚ) :
    ∀ r ∈ (srWalkFull dists clocks si).1.head?, r.split_time = r.total_time := by
  intro r hr
  have h := (srWalk_split_time_chain clocks si dists 0 ⟨si, 0, 0, 0⟩).1 r hr
  simpa using h

lemma srWalkFull_split_time_chain (dists clocks : List ℚ) (si : ℚ) :
    List.Chain' (fun a b => b.split_time = b.total_time - a.total_time)
      (srWalkFull dists clocks si).1 :=
  (srWalk_split_time_chain clocks si dists 0 ⟨si, 0, 0, 0⟩).2

lemma srWalkFull_prev_time (dists clocks : List ℚ) (si : ℚ) :
    (srWalkFull dists clocks si).2.prev_time =
      ((srWalkFull dists clocks si).1.getLast?).elim 0 SplitRec.total_time :=
  srWalk_prev_time clocks si dists 0 ⟨si, 0, 0, 0⟩

lemma srWalkFull_prev_distance (dists clocks : List ℚ) (si : ℚ) :
    (srWalkFull dists clocks si).2.prev_distance =
      ((srWalkFull dists clocks si).1.getLast?).elim 0 SplitRec.total_distance :=
  srWalk_prev_distance clocks si dists 0 ⟨si, 0, 0, 0⟩

lemma srWalkFull_emit (dists clocks : List ℚ) (si : ℚ) :
    ∀ r ∈ (srWalkFull dists clocks si).1,
      ∃ i, i < dists.length ∧ r.total_time = clocks.getD i 0 ∧
        r.total_distance < toMiles (dists.getD i 0) := by
  intro r hr
  obtain ⟨i, hi, ht, hd⟩ := srWalk_total_time_emit clocks si dists 0 ⟨si, 0, 0, 0⟩ r hr
  exact ⟨i, hi, by simpa using ht, hd⟩

/-- The `base` list built by `sr_get_split_info` before the pace fields are
filled in: walk records plus, when `last_split + 1 < len(distances)`, the
trailing partial split. -/
def srBase (dists clocks : List ℚ) (si : ℚ) : List SplitRec :=
  if (srWalkFull dists clocks si).2.last_split + 1 < dists.length then
    (srWalkFull dists clocks si).1 ++ [trailingSplit dists clocks (srWalkFull dists clocks si).2]
  else (srWalkFull dists clocks si).1

lemma sr_get_split_info_eq_base (details : Details) (si : ℚ) (di ci : Nat)
    (hdi : lastIdxOf details.recordingKeys "distance" = some di)
    (hci : lastIdxOf details.recordingKeys "clock" = some ci) :
    sr_get_split_info details si =
      some ((srBase (details.recordingValues.getD di [])
        (details.recordingValues.getD ci []) si).map finalizePace) :=
  sr_get_split_info_eq details si di ci hdi hci

lemma srBase_head_split_time (dists clocks : List ℚ) (si : ℚ) :
    ∀ r ∈ (srBase dists clocks si).head?, r.split_time = r.total_time := by
  intro r hr
  unfold srBase at hr
  by_cases hcond : (srWalkFull dists clocks si).2.last_split + 1 < dists.length
  · rw [if_pos hcond, List.head?_append] at hr
    cases hw : (srWalkFull dists clocks si).1 with
    | nil =>
      rw [hw] at hr
      simp only [List.head?_nil, Option.none_or, List.head?_cons, Option.mem_def,
        Option.some.injEq] at hr
      subst hr
      have hpt := srWalkFull_prev_time dists clocks si
      rw [hw] at hpt
      simp only [List.getLast?_nil, Option.elim] at hpt
      show clocks.getD (clocks.length - 1) 0 - (srWalkFull dists clocks si).2.prev_time =
        clocks.getD (clocks.length - 1) 0
      rw [hpt]
      ring
    | cons r0 rs =>
      rw [hw] at hr
      simp only [List.head?_cons, Option.mem_def] at hr
      have hr' : some r0 = some r := hr
      cases Option.some.inj hr'
      exact srWalkFull_head_split_time dists clocks si _ (by rw [hw]; rfl)
  · rw [if_neg hcond] at hr
    exact srWalkFull_head_split_time dists clocks si r hr

lemma srBase_split_time_chain (dists clocks : List ℚ) (si : ℚ) :
    List.Chain' (fun a b => b.split_time = b.total_time - a.total_time)
      (srBase dists clocks si) := by
  unfold srBase
  by_cases hcond : (srWalkFull dists clocks si).2.last_split + 1 < dists.length
  · rw [if_pos hcond, List.chain'_append]
    refine ⟨srWalkFull_split_time_chain dists clocks si, List.chain'_singleton _, ?_⟩
    intro x hx y hy
    simp only [List.head?_cons, Option.mem_def, Option.some.injEq] at hy
    subst hy
    show clocks.getD (clocks.length - 1) 0 - (srWalkFull dists clocks si).2.prev_time =
      clocks.getD (clocks.length - 1) 0 - x.total_time
    rw [srWalkFull_prev_time dists clocks si, (Option.mem_def).mp hx]
    rfl
  · rw [if_neg hcond]
    exact srWalkFull_split_time_chain dists clocks si

/-- C3: for every input series with both a distance and a clock channel,
the computed split sequence satisfies: the first record's `split_time` equals
its `total_time` (previous total taken as zero), every later record's
`split_time` is its `total_time` minus the previous record's `total_time`;
every walking-phase record's `total_time` is the clock value of an actual
sample whose distance strictly exceeds that record's split boundary (the sample
at or after the boundary crossing — never an interpolated value); and whenever
a sample's cumulative distance exceeds the pending boundary, the loop step
emits exactly the record built from that sample's clock value. -/
theorem split_records_capture_samples
    (details : Details) (si : ℚ) (di ci : Nat) (dists clocks : List ℚ) (out : List SplitRec)
    (hdi : lastIdxOf details.recordingKeys "distance" = some di)
    (hci : lastIdxOf details.recordingKeys "clock" = some ci)
    (hdists : dists = details.recordingValues.getD di [])
    (hclocks : clocks = details.recordingValues.getD ci [])
    (hout : sr_get_split_info details si = some out) :
    (∀ r ∈ out.head?, r.split_time = r.total_time)
  ∧ List.Chain' (fun a b => b.split_time = b.total_time - a.total_time) out
  ∧ (∀ r ∈ (srWalkFull dists clocks si).1,
      ∃ i, i < dists.length ∧ r.total_time = clocks.getD i 0 ∧
        r.total_distance < toMiles (dists.getD i 0))
  ∧ ∀ (d : ℚ) (idx : Nat) (st : SrState), toMiles d > st.next_split →
      (srStep clocks si d idx st).1 =
        [⟨st.next_split, si, clocks.getD idx 0, clocks.getD idx 0 - st.prev_time, 0, 0⟩] := by
  rw [sr_get_split_info_eq_base details si di ci hdi hci, ← hdists, ← hclocks] at hout
  replace hout := Option.some.inj hout
  subst hout
  refine ⟨?_, ?_, srWalkFull_emit dists clocks si, ?_⟩
  · intro r hr
    rw [List.head?_map] at hr
    simp only [Option.mem_def, Option.map_eq_some'] at hr
    obtain ⟨r0, hr0, hfr⟩ := hr
    subst hfr
    rw [finalizePace_split_time, finalizePace_total_time]
    exact srBase_head_split_time dists clocks si r0 hr0
  · rw [List.chain'_map]
    simp only [finalizePace_split_time, finalizePace_total_time]
    exact srBase_split_time_chain dists clocks si
  · intro d idx st h
    simp [srStep, if_pos h]

/-- Witness for C3 at a concrete three-sample series: distances 0.8 km, 2 km,
2.2 km, clock 10 s, 300 s, 600 s, one-mile split interval. -/
theorem split_records_capture_samples_witness :
    (∀ r ∈ ([⟨1, 1, 300, 300, 300, 300⟩,
        ⟨3125/2286, 839/2286, 600, 300, 685800/839, 54864/125⟩] : List SplitRec).head?,
          r.split_time = r.total_time)
  ∧ List.Chain' (fun a b => b.split_time = b.total_time - a.total_time)
      ([⟨1, 1, 300, 300, 300, 300⟩,
        ⟨3125/2286, 839/2286, 600, 300, 685800/839, 54864/125⟩] : List SplitRec)
  ∧ (∀ r ∈ (srWalkFull [4/5, 2, 11/5] [10, 300, 600] 1).1,
      ∃ i, i < ([4/5, 2, 11/5] : List ℚ).length ∧
        r.total_time = ([10, 300, 600] : List ℚ).getD i 0 ∧
        r.total_distance < toMiles (([4/5, 2, 11/5] : List ℚ).getD i 0))
  ∧ ∀ (d : ℚ) (idx : Nat) (st : SrState), toMiles d > st.next_split →
      (srStep [10, 300, 600] 1 d idx st).1 =
        [⟨st.next_split, 1, ([10, 300, 600] : List ℚ).getD idx 0,
          ([10, 300, 600] : List ℚ).getD idx 0 - st.prev_time, 0, 0⟩] :=
  split_records_capture_samples
    ⟨["clock", "distance"], [[10, 300, 600], [4/5, 2, 11/5]]⟩ 1 1 0
    [4/5, 2, 11/5] [10, 300, 600]
    [⟨1, 1, 300, 300, 300, 300⟩, ⟨3125/2286, 839/2286, 600, 300, 685800/839, 54864/125⟩]
    (by decide) (by decide) rfl rfl
    (by norm_num +decide [sr_get_split_info, lastIdxOf, srWalkFull, srWalk, srStep,
      initialSrState, trailingSplit, finalizePace, toMiles, kmPerMile])

/-! ## C4 -/

/-- C4 counterexample: a single-sample series (0.8 km recorded, clock 300 s,
one-mile splits) has unconsumed distance beyond the last full split boundary —
no full split was emitted, so the boundary is 0 and toMiles(0.8 km) > 0 remains
(and toMiles(0.8 km) < 1, so the sample never triggered a split) — yet the
computed split list is empty: no trailing partial record is emitted, because
the source's condition `last_split + 1 < len(distances)` (dayonerunlog.py:340)
is `1 < 1` here. -/
theorem trailing_split_missing_counterexample :
    sr_get_split_info ⟨["distance", "clock"], [[4/5], [300]]⟩ 1 = some []
  ∧ (0 : ℚ) < toMiles (4/5)
  ∧ toMiles (4/5) < 1 :=
  ⟨by norm_num +decide [sr_get_split_info, lastIdxOf, srWalkFull, srWalk, srStep,
      initialSrState, trailingSplit, finalizePace, toMiles, kmPerMile],
   by norm_num [toMiles, kmPerMile], by norm_num [toMiles, kmPerMile]⟩

/-- C4 (amended): after the series is exhausted, the trailing partial split is
emitted **iff** the source's index condition holds — at least one sample lies
strictly after the last split-emitting sample (`last_split`, which is 0 when no
split was emitted).  When emitted, the single trailing record takes its
`total_distance` and `total_time` from the final distance and clock samples,
and its `split_distance`/`split_time` are the differences from the previous
emitted split's totals (baseline 0 when none); when the condition fails, no
trailing record is emitted even if unconsumed distance remains. -/
theorem trailing_split_iff_condition
    (details : Details) (si : ℚ) (di ci : Nat) (dists clocks : List ℚ) (out : List SplitRec)
    (hdi : lastIdxOf details.recordingKeys "distance" = some di)
    (hci : lastIdxOf details.recordingKeys "clock" = some ci)
    (hdists : dists = details.recordingValues.getD di [])
    (hclocks : clocks = details.recordingValues.getD ci [])
    (hout : sr_get_split_info details si = some out) :
    ((srWalkFull dists clocks si).2.last_split + 1 < dists.length →
        out = (srWalkFull dists clocks si).1.map finalizePace ++
          [finalizePace (trailingSplit dists clocks (srWalkFull dists clocks si).2)]
      ∧ (trailingSplit dists clocks (srWalkFull dists clocks si).2).total_distance =
          toMiles (dists.getD (dists.length - 1) 0)
      ∧ (trailingSplit dists clocks (srWalkFull dists clocks si).2).total_time =
          clocks.getD (clocks.length - 1) 0
      ∧ (trailingSplit dists clocks (srWalkFull dists clocks si).2).split_distance =
          toMiles (dists.getD (dists.length - 1) 0) -
            ((srWalkFull dists clocks si).1.getLast?).elim 0 SplitRec.total_distance
      ∧ (trailingSplit dists clocks (srWalkFull dists clocks si).2).split_time =
          clocks.getD (clocks.length - 1) 0 -
            ((srWalkFull dists clocks si).1.getLast?).elim 0 SplitRec.total_time)
  ∧ (¬ (srWalkFull dists clocks si).2.last_split + 1 < dists.length →
        out = (srWalkFull dists clocks si).1.map finalizePace) := by
  rw [sr_get_split_info_eq_base details si di ci hdi hci, ← hdists, ← hclocks] at hout
  replace hout := Option.some.inj hout
  subst hout
  constructor
  · intro hcond
    refine ⟨?_, rfl, rfl, ?_, ?_⟩
    · unfold srBase
      rw [if_pos hcond, List.map_append]
      rfl
    · show toMiles (dists.getD (dists.length - 1) 0) -
          (srWalkFull dists clocks si).2.prev_distance = _
      rw [srWalkFull_prev_distance]
    · show clocks.getD (clocks.length - 1) 0 -
          (srWalkFull dists clocks si).2.prev_time = _
      rw [srWalkFull_prev_time]
  · intro hcond
    unfold srBase
    rw [if_neg hcond]

/-- Witness for C4's amended theorem at the concrete three-sample series (the
trailing split is emitted there: `last_split = 1` and `1 + 1 < 3`). -/
theorem trailing_split_iff_condition_witness :
    ((srWalkFull [4/5, 2, 11/5] [10, 300, 600] 1).2.last_split + 1 <
        ([4/5, 2, 11/5] : List ℚ).length →
        ([⟨1, 1, 300, 300, 300, 300⟩,
            ⟨3125/2286, 839/2286, 600, 300, 685800/839, 54864/125⟩] : List SplitRec) =
          (srWalkFull [4/5, 2, 11/5] [10, 300, 600] 1).1.map finalizePace ++
            [finalizePace (trailingSplit [4/5, 2, 11/5] [10, 300, 600]
              (srWalkFull [4/5, 2, 11/5] [10, 300, 600] 1).2)]
      ∧ (trailingSplit [4/5, 2, 11/5] [10, 300, 600]
            (srWalkFull [4/5, 2, 11/5] [10, 300, 600] 1).2).total_distance =
          toMiles (([4/5, 2, 11/5] : List ℚ).getD (([4/5, 2, 11/5] : List ℚ).length - 1) 0)
      ∧ (trailingSplit [4/5, 2, 11/5] [10, 300, 600]
            (srWalkFull [4/5, 2, 11/5] [10, 300, 600] 1).2).total_time =
          ([10, 300, 600] : List ℚ).getD (([10, 300, 600] : List ℚ).length - 1) 0
      ∧ (trailingSplit [4/5, 2, 11/5] [10, 300, 600]
            (srWalkFull [4/5, 2, 11/5] [10, 300, 600] 1).2).split_distance =
          toMiles (([4/5, 2, 11/5] : List ℚ).getD (([4/5, 2, 11/5] : List ℚ).length - 1) 0) -
            ((srWalkFull [4/5, 2, 11/5] [10, 300, 600] 1).1.getLast?).elim 0
              SplitRec.total_distance
      ∧ (trailingSplit [4/5, 2, 11/5] [10, 300, 600]
            (srWalkFull [4/5, 2, 11/5] [10, 300, 600] 1).2).split_time =
          ([10, 300, 600] : List ℚ).getD (([10, 300, 600] : List ℚ).length - 1) 0 -
            ((srWalkFull [4/5, 2, 11/5] [10, 300, 600] 1).1.getLast?).elim 0
              SplitRec.total_time)
  ∧ (¬ (srWalkFull [4/5, 2, 11/5] [10, 300, 600] 1).2.last_split + 1 <
        ([4/5, 2, 11/5] : List ℚ).length →
        ([⟨1, 1, 300, 300, 300, 300⟩,
            ⟨3125/2286, 839/2286, 600, 300, 685800/839, 54864/125⟩] : List SplitRec) =
          (srWalkFull [4/5, 2, 11/5] [10, 300, 600] 1).1.map finalizePace) :=
  trailing_split_iff_condition
    ⟨["clock", "distance"], [[10, 300, 600], [4/5, 2, 11/5]]⟩ 1 1 0
    [4/5, 2, 11/5] [10, 300, 600]
    [⟨1, 1, 300, 300, 300, 300⟩, ⟨3125/2286, 839/2286, 600, 300, 685800/839, 54864/125⟩]
    (by decide) (by decide) rfl rfl
    (by norm_num +decide [sr_get_split_info, lastIdxOf, srWalkFull, srWalk, srStep,
      initialSrState, trailingSplit, finalizePace, toMiles, kmPerMile])

/-! ## C6 -/

lemma srWalk_total_distance_mono (clocks : List ℚ) (si : ℚ) (hsi : 0 < si)
    (ds : List ℚ) (idx : Nat) (st : SrState) :
    List.Chain' (fun a b => a.total_distance ≤ b.total_distance)
      (srWalk clocks si ds idx st).1 := by
  rw [List.chain'_iff_get]
  intro i hi
  have hi1 : i + 1 < (srWalk clocks si ds idx st).1.length := by omega
  have hi0 : i < (srWalk clocks si ds idx st).1.length := by omega
  have h1 := srWalk_total_distance_get? clocks si ds idx st i
    ((srWalk clocks si ds idx st).1.get ⟨i, hi0⟩)
    (by rw [List.getElem?_eq_getElem hi0, List.get_eq_getElem])
  have h2 := srWalk_total_distance_get? clocks si ds idx st (i + 1)
    ((srWalk clocks si ds idx st).1.get ⟨i + 1, hi1⟩)
    (by rw [List.getElem?_eq_getElem hi1, List.get_eq_getElem])
  rw [h1, h2]
  have hc : ((i : ℚ)) * si ≤ ((i : ℚ) + 1) * si :=
    mul_le_mul_of_nonneg_right (by linarith) hsi.le
  push_cast
  linarith

lemma srBase_mono (dists clocks : List ℚ) (si : ℚ) (hsi : 0 < si)
    (hd : List.Pairwise (· ≤ ·) dists) (hc : List.Pairwise (· ≤ ·) clocks)
    (hlen : clocks.length = dists.length) :
    List.Chain' (fun a b => a.total_distance ≤ b.total_distance ∧ a.total_time ≤ b.total_time)
      (srBase dists clocks si) := by
  have hdist := srWalk_total_distance_mono clocks si hsi dists 0 ⟨si, 0, 0, 0⟩
  have htime := srWalk_total_time_mono clocks si hc dists 0 ⟨si, 0, 0, 0⟩ (by omega)
  have hwalk : List.Chain'
      (fun a b => a.total_distance ≤ b.total_distance ∧ a.total_time ≤ b.total_time)
      (srWalkFull dists clocks si).1 := by
    rw [List.chain'_iff_get] at hdist htime ⊢
    intro i hi
    exact ⟨hdist i hi, htime i hi⟩
  unfold srBase
  by_cases hcond : (srWalkFull dists clocks si).2.last_split + 1 < dists.length
  · rw [if_pos hcond, List.chain'_append]
    refine ⟨hwalk, List.chain'_singleton _, ?_⟩
    intro x hx y hy
    simp only [List.head?_cons, Option.mem_def, Option.some.injEq] at hy
    subst hy
    have hxmem : x ∈ (srWalkFull dists clocks si).1 := List.mem_of_mem_getLast? hx
    obtain ⟨i, hi, ht, hdlt⟩ := srWalkFull_emit dists clocks si x hxmem
    constructor
    · have hmono := getD_mono_of_pairwise dists hd i (dists.length - 1) (by omega) (by omega)
      exact (lt_of_lt_of_le hdlt (toMiles_mono hmono)).le
    · rw [ht]
      exact getD_mono_of_pairwise clocks hc i (clocks.length - 1) (by omega) (by omega)
  · rw [if_neg hcond]
    exact hwalk

lemma stravaSplitsAux_mono (raw : List StSplitRaw) (td tt : ℚ)
    (h : ∀ s ∈ raw, 0 ≤ s.distance ∧ 0 ≤ s.moving_time) :
    List.Chain' (fun a b => a.total_distance ≤ b.total_distance ∧ a.total_time ≤ b.total_time)
      (stravaSplitsAux raw td tt)
  ∧ ∀ r ∈ (stravaSplitsAux raw td tt).head?, td ≤ r.total_distance ∧ tt ≤ r.total_time := by
  induction raw generalizing td tt with
  | nil => simp [stravaSplitsAux]
  | cons s rest ih =>
    have hs := h s (by simp)
    have hrest : ∀ x ∈ rest, 0 ≤ x.distance ∧ 0 ≤ x.moving_time :=
      fun x hx => h x (by simp [hx])
    have hsd : 0 ≤ metersToMiles s.distance := by
      unfold metersToMiles
      exact div_nonneg hs.1 (by norm_num [metersPerMile])
    obtain ⟨ihc, ihh⟩ := ih (td + metersToMiles s.distance) (tt + s.moving_time) hrest
    constructor
    · simp only [stravaSplitsAux]
      rw [List.chain'_cons']
      refine ⟨fun y hy => ?_, ihc⟩
      exact ihh y hy
    · intro r hr
      simp only [stravaSplitsAux, List.head?_cons, Option.mem_def, Option.some.injEq] at hr
      subst hr
      constructor
      · show td ≤ td + metersToMiles s.distance
        linarith
      · show tt ≤ tt + s.moving_time
        linarith [hs.2]

/-- C6: both split computation paths produce sequences whose `total_distance`
and `total_time` are non-decreasing from each record to the next: the raw
time-series calculator, for every well-formed series (non-decreasing cumulative
distances and clock values, channels of equal length, positive split interval),
and the pre-computed per-mile-split mapping of `StravaActivity.splits`, for raw
splits with non-negative distance and moving time. -/
theorem splits_monotone
    (details : Details) (si : ℚ) (di ci : Nat) (dists clocks : List ℚ) (out : List SplitRec)
    (raw : List StSplitRaw)
    (hdi : lastIdxOf details.recordingKeys "distance" = some di)
    (hci : lastIdxOf details.recordingKeys "clock" = some ci)
    (hdists : dists = details.recordingValues.getD di [])
    (hclocks : clocks = details.recordingValues.getD ci [])
    (hout : sr_get_split_info details si = some out)
    (hsi : 0 < si) (hd : List.Pairwise (· ≤ ·) dists) (hc : List.Pairwise (· ≤ ·) clocks)
    (hlen : clocks.length = dists.length)
    (hraw : ∀ s ∈ raw, 0 ≤ s.distance ∧ 0 ≤ s.moving_time) :
    List.Chain' (fun a b => a.total_distance ≤ b.total_distance ∧ a.total_time ≤ b.total_time)
      out
  ∧ List.Chain' (fun a b => a.total_distance ≤ b.total_distance ∧ a.total_time ≤ b.total_time)
      (strava_splits raw) := by
  constructor
  · rw [sr_get_split_info_eq_base details si di ci hdi hci, ← hdists, ← hclocks] at hout
    replace hout := Option.some.inj hout
    subst hout
    rw [List.chain'_map]
    simp only [finalizePace_total_distance, finalizePace_total_time]
    exact srBase_mono dists clocks si hsi hd hc hlen
  · exact (stravaSplitsAux_mono raw 0 0 hraw).1

/-- Witness for C6: the concrete three-sample series from the C3 witness on the
raw path, and two one-mile (1609.344 m) raw Strava splits on the other path. -/
theorem splits_monotone_witness :
    List.Chain' (fun a b => a.total_distance ≤ b.total_distance ∧ a.total_time ≤ b.total_time)
      ([⟨1, 1, 300, 300, 300, 300⟩,
        ⟨3125/2286, 839/2286, 600, 300, 685800/839, 54864/125⟩] : List SplitRec)
  ∧ List.Chain' (fun a b => a.total_distance ≤ b.total_distance ∧ a.total_time ≤ b.total_time)
      (strava_splits [⟨1609344/1000, 300⟩, ⟨1609344/1000, 320⟩]) :=
  splits_monotone
    ⟨["clock", "distance"], [[10, 300, 600], [4/5, 2, 11/5]]⟩ 1 1 0
    [4/5, 2, 11/5] [10, 300, 600]
    [⟨1, 1, 300, 300, 300, 300⟩, ⟨3125/2286, 839/2286, 600, 300, 685800/839, 54864/125⟩]
    [⟨1609344/1000, 300⟩, ⟨1609344/1000, 320⟩]
    (by decide) (by decide) rfl rfl
    (by norm_num +decide [sr_get_split_info, lastIdxOf, srWalkFull, srWalk, srStep,
      initialSrState, trailingSplit, finalizePace, toMiles, kmPerMile])
    (by norm_num) (by norm_num [List.pairwise_cons]) (by norm_num [List.pairwise_cons]) rfl
    (by intro s hs
        simp only [List.mem_cons, List.mem_singleton] at hs
        rcases hs with rfl | rfl | h
        · exact ⟨by norm_num, by norm_num⟩
        · exact ⟨by norm_num, by norm_num⟩
        · simp at h)

/-! ## C10 -/

/-- C10: each input sample emits at most one split record and, when it emits,
the record's boundary is the pending `next_split` and the pending boundary
advances by exactly one `split_interval`; across the whole walk the j-th
emitted record's boundary is the initial boundary plus j intervals — so a
single sample whose cumulative distance crosses several boundaries produces
only one record there, and the skipped boundaries surface only with later
samples (or the trailing-partial step) — and no more records than samples are
ever emitted. -/
theorem one_split_per_sample (clocks : List ℚ) (si d : ℚ) (idx : Nat) (st : SrState)
    (ds : List ℚ) :
    (srStep clocks si d idx st).1.length ≤ 1
  ∧ (∀ r ∈ (srStep clocks si d idx st).1,
       r.total_distance = st.next_split ∧
       (srStep clocks si d idx st).2.next_split = st.next_split + si)
  ∧ (∀ (j : Nat) (r : SplitRec), (srWalk clocks si ds idx st).1[j]? = some r →
       r.total_distance = st.next_split + j * si)
  ∧ (srWalk clocks si ds idx st).1.length ≤ ds.length := by
  refine ⟨?_, ?_, fun j r hr => srWalk_total_distance_get? clocks si ds idx st j r hr,
    srWalk_length clocks si ds idx st⟩
  · by_cases h : toMiles d > st.next_split
    · simp [srStep, if_pos h]
    · simp [srStep, if_neg h]
  · intro r hr
    by_cases h : toMiles d > st.next_split
    · constructor
      · simp only [srStep, if_pos h] at hr
        rcases List.mem_singleton.mp hr with rfl
        rfl
      · simp [srStep, if_pos h]
    · simp [srStep, if_neg h] at hr

/-- Witness for C10: a single 4 km sample (≈ 2.49 mi) crosses both the 1-mile
and the 2-mile boundary at once, yet the walk emits exactly one record, whose
boundary is 1 mile. -/
theorem one_split_per_sample_witness :
    (srStep [100] 1 4 0 ⟨1, 0, 0, 0⟩).1.length ≤ 1
  ∧ (srWalk [100] 1 [4] 0 ⟨1, 0, 0, 0⟩).1[0]? = some ⟨1, 1, 100, 100, 0, 0⟩
  ∧ (⟨1, 1, 100, 100, 0, 0⟩ : SplitRec).total_distance =
      (⟨1, 0, 0, 0⟩ : SrState).next_split + ((0 : Nat) : ℚ) * 1
  ∧ (srWalk [100] 1 [4] 0 ⟨1, 0, 0, 0⟩).1.length ≤ ([4] : List ℚ).length
  ∧ toMiles 4 > 2 :=
  ⟨(one_split_per_sample [100] 1 4 0 ⟨1, 0, 0, 0⟩ [4]).1,
   by norm_num +decide [srWalk, srStep, toMiles, kmPerMile],
   (one_split_per_sample [100] 1 4 0 ⟨1, 0, 0, 0⟩ [4]).2.2.1 0 ⟨1, 1, 100, 100, 0, 0⟩
     (by norm_num +decide [srWalk, srStep, toMiles, kmPerMile]),
   (one_split_per_sample [100] 1 4 0 ⟨1, 0, 0, 0⟩ [4]).2.2.2,
   by norm_num [toMiles, kmPerMile]⟩
